import Mathlib

/-!
Verification of the feature-engineering and clustering-decision engine of the
spotify-optimizer repository, against its natural-language specification.

The Python sources embedded here are
`backend/services/audio_features.py` (class `AudioFeaturesService`),
`backend/services/clustering.py` (class `ClusteringService`) and the
`Track` model of `backend/models.py`.

Modelling conventions:
* Python floats are modelled as exact rationals (`ℚ`); every arithmetic
  operation performed by the code on descriptor values is rational, except
  `np.log`, which is kept abstract (a function parameter) where a claim
  touches it.
* `None`-able descriptor columns of the `Track` model become `Option ℚ`.
* Calls into scikit-learn estimators (KMeans / DBSCAN / GaussianMixture /
  SpectralClustering / PCA fits and the silhouette computation) are external
  collaborators; each is abstracted as an explicit oracle parameter, and the
  surrounding decision logic - guards, grid search bookkeeping, fallbacks,
  grouping, label handling - is embedded faithfully from the source.
* Python dictionaries keyed by feature name become functions out of the
  fixed feature type; `dict.get(k, d)` becomes `Option.getD`.
-/

/-- The fixed set of audio descriptors handled by the services
(`AUDIO_FEATURES` of `clustering.py`, which also includes `loudness`;
`audio_features.py` iterates over the first eight only). -/
inductive AudioFeature where
  | danceability
  | energy
  | speechiness
  | acousticness
  | instrumentalness
  | liveness
  | valence
  | tempo
  | loudness
deriving DecidableEq, Repr

/-- The `Track` model of `backend/models.py`: optional numeric audio
descriptors plus the `features_imputed` boolean column (default `False`).
Display metadata is irrelevant to the claims and omitted; `id` is the primary
key used for cluster membership lists. -/
structure Track where
  id : Nat
  danceability : Option ℚ := none
  energy : Option ℚ := none
  speechiness : Option ℚ := none
  acousticness : Option ℚ := none
  instrumentalness : Option ℚ := none
  liveness : Option ℚ := none
  valence : Option ℚ := none
  tempo : Option ℚ := none
  loudness : Option ℚ := none
  features_imputed : Bool := false
deriving DecidableEq, Repr

/-- `getattr(track, feature)` for the descriptor columns. -/
def auGet (t : Track) : AudioFeature → Option ℚ
  | .danceability => t.danceability
  | .energy => t.energy
  | .speechiness => t.speechiness
  | .acousticness => t.acousticness
  | .instrumentalness => t.instrumentalness
  | .liveness => t.liveness
  | .valence => t.valence
  | .tempo => t.tempo
  | .loudness => t.loudness

/-- `setattr(track, feature, value)` for the descriptor columns. -/
def auSet (t : Track) (f : AudioFeature) (v : ℚ) : Track :=
  match f with
  | .danceability => { t with danceability := some v }
  | .energy => { t with energy := some v }
  | .speechiness => { t with speechiness := some v }
  | .acousticness => { t with acousticness := some v }
  | .instrumentalness => { t with instrumentalness := some v }
  | .liveness => { t with liveness := some v }
  | .valence => { t with valence := some v }
  | .tempo => { t with tempo := some v }
  | .loudness => { t with loudness := some v }

/-- `AudioFeaturesService.AUDIO_FEATURES`: the eight descriptors the audio
features service iterates over (no `loudness`). -/
def AUDIO_FEATURES : List AudioFeature :=
  [.danceability, .energy, .speechiness, .acousticness,
   .instrumentalness, .liveness, .valence, .tempo]

/-- `AudioFeaturesService.FEATURE_DEFAULTS`: the documented per-descriptor
default dictionary.  `loudness` is not a key of that dictionary, hence
`none`. -/
def FEATURE_DEFAULTS : AudioFeature → Option ℚ
  | .danceability => some (1/2)
  | .energy => some (1/2)
  | .speechiness => some (1/10)
  | .acousticness => some (3/10)
  | .instrumentalness => some (1/5)
  | .liveness => some (3/20)
  | .valence => some (1/2)
  | .tempo => some 120
  | .loudness => none

/-- `FEATURE_DEFAULTS[feature]` - direct dictionary indexing, only ever used
by the audio features service on its eight keys, where it is total. -/
def defaultOf (f : AudioFeature) : ℚ := (FEATURE_DEFAULTS f).getD 0

/-- Insert a rational into a sorted list, keeping it sorted. -/
def insertSorted (x : ℚ) : List ℚ → List ℚ
  | [] => [x]
  | y :: ys => if x ≤ y then x :: y :: ys else y :: insertSorted x ys

/-- `sorted(xs)` for rational values.  Python's `sorted` is a stable sort;
on a list of plain numbers the output value sequence of any correct sort
coincides with it, so a structurally recursive insertion sort is an exact
model. -/
def sortRat (xs : List ℚ) : List ℚ := xs.foldr insertSorted []

/-- `statistics.median(xs)` for a non-empty list: middle element of the
sorted list, or the average of the two middle elements for even length
(an empty list never reaches this call in the embedded code; `0` is a
junk value). -/
def pyMedian (xs : List ℚ) : ℚ :=
  let s := sortRat xs
  let n := s.length
  if n % 2 = 1 then s.getD (n / 2) 0
  else (s.getD (n / 2 - 1) 0 + s.getD (n / 2) 0) / 2

/-- The known values of descriptor `f` across a batch (the `values` list
collected by `_statistical_imputation`, in input order). -/
def knownValues (tracks : List Track) (f : AudioFeature) : List ℚ :=
  tracks.filterMap (fun t => auGet t f)

/-- `feature_stats[feature]` of `_statistical_imputation`: the median of the
available values, or the documented default when no value is available. -/
def featureStats (tracks : List Track) (f : AudioFeature) : ℚ :=
  let vs := knownValues tracks f
  if vs.isEmpty then defaultOf f else pyMedian vs

/-- One step of the fill loops of `_statistical_imputation` /
`_fill_with_defaults`: set descriptor `f` to `stats f` when it is missing. -/
def fillStep (stats : AudioFeature → ℚ) (t : Track) (f : AudioFeature) : Track :=
  if (auGet t f).isNone then auSet t f (stats f) else t

/-- Fill every missing descriptor of every track with `stats`. -/
def fillAll (stats : AudioFeature → ℚ) (tracks : List Track) : List Track :=
  tracks.map (fun t => AUDIO_FEATURES.foldl (fillStep stats) t)

/-- `AudioFeaturesService._fill_with_defaults`. -/
def fill_with_defaults (tracks : List Track) : List Track :=
  fillAll defaultOf tracks

/-- `AudioFeaturesService._statistical_imputation`: feature statistics are
computed from the batch first, then every missing entry is filled. -/
def statistical_imputation (tracks : List Track) : List Track :=
  fillAll (featureStats tracks) tracks

/-- `has_missing` for one track: some iterated descriptor is `None`. -/
def trackHasMissing (t : Track) : Bool :=
  AUDIO_FEATURES.any (fun f => (auGet t f).isNone)

/-- `complete_cases` count: tracks with every iterated descriptor present. -/
def completeCount (tracks : List Track) : Nat :=
  (tracks.filter (fun t => !trackHasMissing t)).length

/-- `AudioFeaturesService.impute_missing_features`.  The branch structure of
the source is kept exactly; the one branch that invokes the external
scikit-learn `KNNImputer` (taken only when at least 3 complete cases exist)
is not modelled and is returned as `none`. -/
def impute_missing_features (tracks : List Track) : Option (List Track) :=
  if tracks.length < 3 then some (fill_with_defaults tracks)
  else if tracks.all (fun t => !trackHasMissing t) then some tracks
  else if 3 ≤ completeCount tracks then none
  else some (statistical_imputation tracks)

/-- Concrete batch for claim C2: three tracks, the first fully featured,
the other two with every descriptor missing, so that every descriptor has
exactly one known value across the batch. -/
def c2Batch : List Track :=
  [{ id := 1, danceability := some (9/10), energy := some (4/5),
     speechiness := some (1/20), acousticness := some (1/10),
     instrumentalness := some 0, liveness := some (1/10),
     valence := some (7/10), tempo := some 130 },
   { id := 2 }, { id := 3 }]

/-- Concrete batch for claim C3: two tracks with every descriptor missing
and the `features_imputed` column at its database default `False`. -/
def c3Batch : List Track := [{ id := 1 }, { id := 2 }]

/-! ### The clustering service (`backend/services/clustering.py`) -/

namespace ClusteringService

/-- `ClusteringService.AUDIO_FEATURES`: the expanded descriptor set used for
clustering - the eight descriptors of the audio features service plus
`loudness`, in source order. -/
def AUDIO_FEATURES : List AudioFeature :=
  [.danceability, .energy, .speechiness, .acousticness,
   .instrumentalness, .liveness, .valence, .tempo, .loudness]

/-- `ClusteringService.LOG_SCALE_FEATURES`. -/
def LOG_SCALE_FEATURES : List AudioFeature := [.tempo, .loudness]

/-- `ClusteringService.FEATURE_WEIGHTS` (the `.get(feature, 1.0)` lookup is
total on the nine clustering descriptors, which are all keys). -/
def FEATURE_WEIGHTS : AudioFeature → ℚ
  | .danceability => 6/5
  | .energy => 6/5
  | .valence => 11/10
  | .acousticness => 1
  | .instrumentalness => 9/10
  | .speechiness => 4/5
  | .liveness => 7/10
  | .tempo => 1
  | .loudness => 4/5

/-- `self.audio_features_service.FEATURE_DEFAULTS.get(feature, 0.5)`:
dictionary lookup with fallback `0.5` (the fallback fires for `loudness`,
which is not a key of `FEATURE_DEFAULTS`). -/
def featureDefaultGet (f : AudioFeature) : ℚ := (FEATURE_DEFAULTS f).getD (1/2)

/-- The raw (human-scale) value stored for labeling by
`_preprocess_features` when the descriptor is present (lines 87-97):
tempo rescaled over a 60-200 BPM window, loudness over a -60..0 dB window,
everything else clamped to `[0, 1]`. -/
def rawValue (f : AudioFeature) (v : ℚ) : ℚ :=
  if f = .tempo then min (max ((v - 60) / (200 - 60)) 0) 1
  else if f = .loudness then min (max ((v + 60) / 60) 0) 1
  else min (max v 0) 1

/-- The raw-matrix entry of `_preprocess_features` for one track and one
descriptor: `rawValue` when present, the default (unrescaled) otherwise. -/
def rawEntry (t : Track) (f : AudioFeature) : ℚ :=
  match auGet t f with
  | some v => rawValue f v
  | none => featureDefaultGet f

/-- The clustering-matrix value built by `_preprocess_features`
(lines 99-110), before standardization: the log transform is applied only
when the descriptor is in `LOG_SCALE_FEATURES` **and its value is strictly
positive**.  `np.log` is kept abstract as the parameter `ln`. -/
def clusteringValue (ln : ℚ → ℚ) (f : AudioFeature) (v : ℚ) : ℚ :=
  if f ∈ LOG_SCALE_FEATURES ∧ 0 < v then
    if f = .tempo then ln (max v 1)
    else if f = .loudness then ln (max (v + 60) 1)
    else v
  else v

/-- `ClusterData` as the clustering code uses it: the schema fields plus
the `label` attribute the service attaches and later rewrites
(`c.label or "Cluster"` guards a missing label, hence `Option`). -/
structure ClusterData where
  cluster_id : Int
  track_count : Nat
  center_features : AudioFeature → ℚ
  track_ids : List Nat
  label : Option String

/-- `ClusteringService._label_cluster`: the fixed decision tree over the
cluster's mean raw features. -/
def label_cluster (c : AudioFeature → ℚ) : String :=
  let energy := c .energy
  let valence := c .valence
  let danceability := c .danceability
  let acousticness := c .acousticness
  let instrumentalness := c .instrumentalness
  if 7/10 < energy then
    if 7/10 < valence then
      if 7/10 < danceability then "High-energy dance hits"
      else "Upbeat & energetic"
    else if valence < 2/5 then "Intense & aggressive"
    else "High-energy tracks"
  else if energy < 2/5 then
    if 3/5 < acousticness then
      if valence < 2/5 then "Mellow & melancholic"
      else "Acoustic & chill"
    else if valence < 2/5 then "Sad & slow"
    else "Calm & relaxed"
  else
    if 7/10 < danceability then "Moderate dance tracks"
    else if 3/5 < acousticness then "Folk & acoustic"
    else if 1/2 < instrumentalness then "Instrumental pieces"
    else if 7/10 < valence then "Feel-good tracks"
    else if valence < 2/5 then "Bittersweet songs"
    else "Balanced mix"

/-- Python's built-in `round`: round half to even. -/
def pyRound (q : ℚ) : ℤ :=
  let n := ⌊q⌋
  let r := q - n
  if r < 1/2 then n
  else if 1/2 < r then n + 1
  else if n % 2 = 0 then n
  else n + 1

/-- The coarse 1-5 bucket of `_deduplicate_labels`:
`int(min(5, max(1, round(x * 5))))`. -/
def bucket (x : ℚ) : ℤ := min 5 (max 1 (pyRound (x * 5)))

/-- `c.label or "Cluster"`: Python `or` falls through on `None` and on the
empty string (both falsy). -/
def labelOrCluster : Option String → String
  | none => "Cluster"
  | some s => if s = "" then "Cluster" else s

/-- The compact numeric descriptor appended on label collision:
`"E{e}-D{d}-V{v}"` with coarse buckets of energy / danceability /
valence (`center_features.get(key, 0.5)` is plain application here since
the centre dictionary is total). -/
def clusterDescriptor (c : ClusterData) : String :=
  "E" ++ toString (bucket (c.center_features .energy)) ++
  "-D" ++ toString (bucket (c.center_features .danceability)) ++
  "-V" ++ toString (bucket (c.center_features .valence))

/-- `label_counts[base]` of `_deduplicate_labels`, computed from the input
cluster list. -/
def countLabel (clusters : List ClusterData) (b : String) : Nat :=
  (clusters.filter (fun c => labelOrCluster c.label == b)).length

/-- `ClusteringService._deduplicate_labels`.  When every base label is
unique the list is returned unchanged; otherwise every cluster whose base
label collides gets the compact descriptor appended.  (The `seen` counter
of the source is incremented but never read, so it does not appear.) -/
def deduplicate_labels (clusters : List ClusterData) : List ClusterData :=
  if clusters.all (fun c => countLabel clusters (labelOrCluster c.label) == 1) then
    clusters
  else
    clusters.map (fun c =>
      if 1 < countLabel clusters (labelOrCluster c.label) then
        let newLabel := labelOrCluster c.label ++ " (" ++ clusterDescriptor c ++ ")"
        { c with label := some newLabel }
      else c)

/-- Append `(idx, track)` to the entry of `key` in the insertion-ordered
dictionary `clusters_dict`, creating the entry at the back when absent -
exactly Python's `dict` update of `cluster_tracks` (line 747-751). -/
def groupInsert (acc : List (Int × List (Nat × Track))) (key : Int)
    (p : Nat × Track) : List (Int × List (Nat × Track)) :=
  match acc with
  | [] => [(key, [p])]
  | (k, ps) :: rest =>
    if k = key then (k, ps ++ [p]) :: rest
    else (k, ps) :: groupInsert rest key p

/-- `clusters_dict` of `cluster_tracks`: group the enumerated
`(label, track)` pairs by label, preserving first-occurrence key order and
per-key index order. -/
def clustersDict (pairs : List (Nat × Int × Track)) :
    List (Int × List (Nat × Track)) :=
  pairs.foldl (fun acc ip => groupInsert acc ip.2.1 (ip.1, ip.2.2)) []

/-- The interpretable centre dictionary of one cluster: per descriptor, the
mean of the members' raw-matrix entries (`np.mean(cluster_raw_features,
axis=0)` read back through the `AUDIO_FEATURES` enumeration). -/
def centerOf (members : List Track) (f : AudioFeature) : ℚ :=
  (members.map (fun t => rawEntry t f)).sum / members.length

/-- The `ClusterData` objects built by `cluster_tracks` (lines 754-787),
one per `clusters_dict` entry, in dictionary order: negative (noise) ids
are collapsed to `-1`, the track count is the member count, the centre is
the raw-feature mean and the label comes from `_label_cluster`. -/
def mkClusterData (labels : List Int) (tracks : List Track) : List ClusterData :=
  (clustersDict ((labels.zip tracks).enum)).map
    (fun (g : Int × List (Nat × Track)) =>
    let members := g.2.map Prod.snd
    { cluster_id := if 0 ≤ g.1 then g.1 else -1,
      track_count := g.2.length,
      center_features := centerOf members,
      track_ids := members.map Track.id,
      label := some (label_cluster (centerOf members)) })

/-- `clusters.sort(key=lambda x: x.track_count, reverse=True)`: stable
descending sort by track count. -/
def sortClustersBySize (clusters : List ClusterData) : List ClusterData :=
  clusters.mergeSort (fun a b => b.track_count ≤ a.track_count)

/-- `len(set(cluster_labels))`: the number of distinct labels. -/
def distinctLabelCount (labels : List Int) : Nat := labels.dedup.length

/-- The silhouette value `cluster_tracks` returns (lines 722-744): the
external `silhouette_score` call is consulted only when there are more than
one and fewer than `n_samples` distinct labels, and any `ValueError` it
raises (`silRaw = none`) or a skipped computation defaults to `0.0`. -/
def compute_silhouette (silRaw : Option ℚ) (labels : List Int) (nSamples : Nat) : ℚ :=
  if 1 < distinctLabelCount labels ∧ distinctLabelCount labels < nSamples then
    silRaw.getD 0
  else 0

/-- `ClusteringService._apply_clustering_algorithm`, at dispatch level: the
four supported method names run an external clustering estimator
(abstracted by the oracle `run`, which returns the per-track label array);
any other name raises `ValueError`.  No supported branch can produce that
error: each ends by returning a label array. -/
def apply_clustering_algorithm (run : String → List Int) (method : String) :
    Except String (List Int) :=
  if method = "kmeans" then .ok (run method)
  else if method = "dbscan" then .ok (run method)
  else if method = "gaussian_mixture" then .ok (run method)
  else if method = "spectral" then .ok (run method)
  else .error ("Unsupported clustering method: " ++ method)

/-- `ClusteringService.cluster_tracks`: guard, dispatch, silhouette,
grouping, size-descending sort, label de-duplication.  `run` abstracts the
external clustering estimators and `silRaw` the external
`silhouette_score` call (`none` models a raised `ValueError`). -/
def cluster_tracks (run : String → List Int) (silRaw : Option ℚ)
    (tracks : List Track) (method : String) :
    Except String (List ClusterData × ℚ) :=
  if tracks.length < 2 then .error "Need at least 2 tracks for clustering"
  else
    match apply_clustering_algorithm run method with
    | .error e => .error e
    | .ok labels =>
      let sil := compute_silhouette silRaw labels tracks.length
      let clusters := deduplicate_labels (sortClustersBySize (mkClusterData labels tracks))
      .ok (clusters, sil)

/-- `ClusteringService.get_pca_coordinates`: lists with fewer than 2 tracks
return an empty coordinate list before any computation happens; the rest of
the function (preprocessing, the external PCA fit, sign normalization and
order restoration) is abstracted as `pipeline`. -/
def get_pca_coordinates (pipeline : List Track → List (Nat × ℚ × ℚ))
    (tracks : List Track) : List (Nat × ℚ × ℚ) :=
  if tracks.length < 2 then [] else pipeline tracks

/-- Proof helper: the `(idx, track)` payloads stored in a `clusters_dict`,
in bucket order. -/
def groupElems (gs : List (Int × List (Nat × Track))) : List (Nat × Track) :=
  (gs.map Prod.snd).flatten

end ClusteringService

namespace ClusteringService

/-- One `evaluation_results` entry of `_find_optimal_clusters`: the four
quality metrics computed for a candidate `k` (the stored label array plays
no role in the selection and is omitted). -/
structure EvalMetrics where
  silhouette : ℚ
  calinski_harabasz : ℚ
  wcss : ℚ
  davies_bouldin : ℚ

/-- `normalize_metric` of `_select_optimal_k_multi_criteria`: rescale to
`[0,1]` across candidates, constant `0.5` when all values coincide,
inverted when lower is better. -/
def normalize_metric (values : List ℚ) (higher : Bool) : List ℚ :=
  match values with
  | [] => []
  | v :: vs =>
    let mn := vs.foldl min v
    let mx := vs.foldl max v
    if mx = mn then values.map (fun _ => 1/2)
    else if higher then values.map (fun x => (x - mn) / (mx - mn))
    else values.map (fun x => (mx - x) / (mx - mn))

/-- `ClusteringService._calculate_elbow_scores` (the `k_values` argument of
the source is never read): `0.5` everywhere for fewer than 3 candidates,
otherwise the absolute second difference of WCSS, `0.0` at both ends. -/
def calculate_elbow_scores (wcss : List ℚ) : List ℚ :=
  if wcss.length < 3 then wcss.map (fun _ => 1/2)
  else (List.range wcss.length).map (fun i =>
    if i = 0 ∨ i = wcss.length - 1 then 0
    else |(wcss.getD (i+1) 0 - wcss.getD i 0) - (wcss.getD i 0 - wcss.getD (i-1) 0)|)

/-- The composite scores of `_select_optimal_k_multi_criteria`:
`0.35·silhouette + 0.20·Calinski-Harabasz + 0.25·elbow +
0.20·Davies-Bouldin` over the normalized metrics, minus the
`0.05·(k−2)` simplicity penalty, floored at 0.  (The source also computes
`norm_wcss` but never uses it in the composite: WCSS enters only through
the elbow scores.) -/
def compositeScores (results : List (Nat × EvalMetrics)) : List ℚ :=
  let ks := results.map Prod.fst
  let nsil := normalize_metric (results.map (fun r => r.2.silhouette)) true
  let ncal := normalize_metric (results.map (fun r => r.2.calinski_harabasz)) true
  let ndb := normalize_metric (results.map (fun r => r.2.davies_bouldin)) false
  let nelb := normalize_metric (calculate_elbow_scores (results.map (fun r => r.2.wcss))) true
  (List.range results.length).map (fun i =>
    max 0 ((35/100) * nsil.getD i 0 + (20/100) * ncal.getD i 0 +
      (25/100) * nelb.getD i 0 + (20/100) * ndb.getD i 0 -
      ((ks.getD i 2 : ℚ) - 2) * (5/100)))

/-- `composite_scores.index(max(composite_scores))`: the first index
attaining the maximum. -/
def idxOfMax : List ℚ → Nat
  | [] => 0
  | [_] => 0
  | x :: y :: ys =>
    let j := idxOfMax (y :: ys)
    if x < (y :: ys).getD j 0 then j + 1 else 0

/-- `ClusteringService._select_optimal_k_multi_criteria`: a single
candidate is returned directly; otherwise the `k` with the highest
composite score (first on ties) wins. -/
def select_optimal_k_multi_criteria (results : List (Nat × EvalMetrics)) : Nat :=
  match results with
  | [] => 2
  | [r] => r.1
  | r0 :: r1 :: rs =>
    ((r0 :: r1 :: rs).map Prod.fst).getD
      (idxOfMax (compositeScores (r0 :: r1 :: rs))) 2

/-- `ClusteringService._find_optimal_clusters`.  For fewer than 4 samples
the answer is `min(len(features)-1, 2)` immediately.  Otherwise each
candidate `k` in `range(2, min(max_clusters, n-1) + 1)` is evaluated by an
external k-means pass plus four metric computations, abstracted as the
oracle `evalAt` (`none` models a skipped `k`: a single-cluster collapse or
a raised exception); no viable candidate defaults to 2. -/
def find_optimal_clusters (evalAt : Nat → Option EvalMetrics) (n : Nat)
    (maxClusters : Nat) : Nat :=
  if n < 4 then min (n - 1) 2
  else if ((List.range' 2 (min maxClusters (n - 1) - 1)).filterMap
      (fun k => (evalAt k).map (fun m => (k, m)))).isEmpty then 2
  else select_optimal_k_multi_criteria
    ((List.range' 2 (min maxClusters (n - 1) - 1)).filterMap
      (fun k => (evalAt k).map (fun m => (k, m))))

/-! The DBSCAN acceptance branch of `_apply_clustering_algorithm`
(lines 501-532): once the best grid-search trial has at least 2 real
clusters and at most 50% noise, every noise point is reassigned to the
nearest cluster centroid and all labels are shifted to be 1-based. -/

/-- `np.sum(pts ** 2)` along one row. -/
def sumSq (x : List ℚ) : ℚ := (x.map (fun a => a ^ 2)).sum

/-- One entry of `pts @ centroids.T`. -/
def dotProd (x c : List ℚ) : ℚ := ((x.zip c).map (fun p => p.1 * p.2)).sum

/-- One entry of the distance matrix `d2 = x2 + c2 - 2 * xc` computed by the
noise-reassignment code. -/
def d2code (x c : List ℚ) : ℚ := sumSq x + sumSq c - 2 * dotProd x c

/-- The squared Euclidean distance, the quantity the spec names. -/
def sqDist (x c : List ℚ) : ℚ := ((x.zip c).map (fun p => (p.1 - p.2) ^ 2)).sum

/-- Sorted insertion of an integer label. -/
def insertSortedInt (x : Int) : List Int → List Int
  | [] => [x]
  | y :: ys => if x ≤ y then x :: y :: ys else y :: insertSortedInt x ys

/-- `sorted(...)` over integer labels. -/
def sortInt (xs : List Int) : List Int := xs.foldr insertSortedInt []

/-- `unique = sorted(list(set(cluster_labels[non_noise_mask])))` with
`non_noise_mask = cluster_labels >= 0`. -/
def uniqueNonNoise (labels : List Int) : List Int :=
  sortInt ((labels.filter (fun l => 0 ≤ l)).dedup)

/-- The member rows of cluster `l` (`features[cluster_labels == lbl]`). -/
def memberRows (features : List (List ℚ)) (labels : List Int) (l : Int) :
    List (List ℚ) :=
  ((labels.zip features).filter (fun p => p.1 = l)).map Prod.snd

/-- The centroid of cluster `l`: the componentwise mean of its member rows
(`features[cluster_labels == lbl].mean(axis=0)`), over `dim` feature
columns. -/
def centroidOf (features : List (List ℚ)) (labels : List Int) (dim : Nat)
    (l : Int) : List ℚ :=
  (List.range dim).map (fun c =>
    ((memberRows features labels l).map (fun r => r.getD c 0)).sum
      / (memberRows features labels l).length)

/-- `d2.argmin(axis=1)` for one row: the first index attaining the minimum. -/
def idxOfMin : List ℚ → Nat
  | [] => 0
  | [_] => 0
  | x :: y :: ys =>
    let j := idxOfMin (y :: ys)
    if (y :: ys).getD j 0 < x then j + 1 else 0

/-- `unique[nearest[i]]`: the label of the centroid nearest (by the `d2`
matrix) to the noise point `x`. -/
def nearestCentroidLabel (features : List (List ℚ)) (labels : List Int)
    (x : List ℚ) : Int :=
  (uniqueNonNoise labels).getD
    (idxOfMin ((uniqueNonNoise labels).map
      (fun l => d2code x (centroidOf features labels (features.headD []).length l)))) 0

/-- The label array produced by the acceptance branch: noise points take
their nearest centroid's label, then every label is shifted by `+1`
(`cluster_labels = cluster_labels + 1`).  The source computes `nearest`
for all noise indices from the pre-mutation labels, so a pointwise map
over indices is an exact model; when no `-1` is present the reassignment
block is skipped and only the shift applies, which the same map yields. -/
def dbscan_accept_branch (features : List (List ℚ)) (labels : List Int) :
    List Int :=
  (List.range labels.length).map (fun i =>
    (if labels.getD i 0 = -1
     then nearestCentroidLabel features labels (features.getD i [])
     else labels.getD i 0) + 1)

end ClusteringService

/-- Concrete input for claim C8: two clusters that compute the identical
base label and whose centre features coincide, so that their coarse 1-5
buckets - and hence the appended descriptors - also coincide. -/
def c8a : ClusteringService.ClusterData :=
  { cluster_id := 0, track_count := 2, center_features := fun _ => 1,
    track_ids := [1, 2], label := some "Balanced mix" }

/-- Second cluster of the C8 input: same base label and centre features. -/
def c8b : ClusteringService.ClusterData :=
  { cluster_id := 1, track_count := 2, center_features := fun _ => 1,
    track_ids := [3, 4], label := some "Balanced mix" }

/-- The C8 input cluster list. -/
def c8Clusters : List ClusteringService.ClusterData := [c8a, c8b]

/-! ### Basic lemmas about the descriptor accessors and the fill loops -/

theorem auGet_auSet_self (t : Track) (f : AudioFeature) (v : ℚ) :
    auGet (auSet t f v) f = some v := by
  cases f <;> rfl

theorem auGet_auSet_ne (t : Track) {f g : AudioFeature} (v : ℚ) (h : f ≠ g) :
    auGet (auSet t g v) f = auGet t f := by
  cases f <;> cases g <;> first | exact absurd rfl h | rfl

theorem features_imputed_auSet (t : Track) (f : AudioFeature) (v : ℚ) :
    (auSet t f v).features_imputed = t.features_imputed := by
  cases f <;> rfl

theorem auGet_fillStep_self (stats : AudioFeature → ℚ) (t : Track) (f : AudioFeature) :
    auGet (fillStep stats t f) f = some ((auGet t f).getD (stats f)) := by
  unfold fillStep
  cases h : auGet t f with
  | none => simp [h, auGet_auSet_self]
  | some w => simp [h]

theorem auGet_fillStep_ne (stats : AudioFeature → ℚ) (t : Track) {f g : AudioFeature}
    (h : f ≠ g) : auGet (fillStep stats t g) f = auGet t f := by
  unfold fillStep
  split
  · exact auGet_auSet_ne t _ h
  · rfl

theorem features_imputed_fillStep (stats : AudioFeature → ℚ) (t : Track) (f : AudioFeature) :
    (fillStep stats t f).features_imputed = t.features_imputed := by
  unfold fillStep
  split
  · exact features_imputed_auSet t f _
  · rfl

theorem auGet_foldl_fill_not_mem (stats : AudioFeature → ℚ) (f : AudioFeature) :
    ∀ (fs : List AudioFeature) (t : Track), f ∉ fs →
      auGet (fs.foldl (fillStep stats) t) f = auGet t f := by
  intro fs
  induction fs with
  | nil => intro t _; rfl
  | cons g gs ih =>
    intro t hmem
    rw [List.foldl_cons, ih _ (fun h => hmem (List.mem_cons_of_mem g h))]
    exact auGet_fillStep_ne stats t (fun h => hmem (h ▸ List.mem_cons_self g gs))

theorem auGet_foldl_fill_mem (stats : AudioFeature → ℚ) (f : AudioFeature) :
    ∀ (fs : List AudioFeature) (t : Track), f ∈ fs → fs.Nodup →
      auGet (fs.foldl (fillStep stats) t) f = some ((auGet t f).getD (stats f)) := by
  intro fs
  induction fs with
  | nil => intro t h _; cases h
  | cons g gs ih =>
    intro t hmem hnd
    rw [List.foldl_cons]
    rcases List.mem_cons.1 hmem with heq | htail
    · subst heq
      rw [auGet_foldl_fill_not_mem stats f gs _ (List.nodup_cons.1 hnd).1]
      exact auGet_fillStep_self stats t f
    · rw [ih _ htail (List.nodup_cons.1 hnd).2,
        auGet_fillStep_ne stats t
          (fun h => (List.nodup_cons.1 hnd).1 (by rw [← h]; exact htail))]

theorem features_imputed_foldl_fill (stats : AudioFeature → ℚ) :
    ∀ (fs : List AudioFeature) (t : Track),
      (fs.foldl (fillStep stats) t).features_imputed = t.features_imputed := by
  intro fs
  induction fs with
  | nil => intro t; rfl
  | cons g gs ih =>
    intro t
    rw [List.foldl_cons, ih, features_imputed_fillStep]

theorem AUDIO_FEATURES_nodup : AUDIO_FEATURES.Nodup := by decide

/-- The value every output track carries for a descriptor after a fill pass:
the original value when present, the computed statistic when missing. -/
theorem fillAll_auGet {stats : AudioFeature → ℚ} {tracks : List Track}
    {t' : Track} (h : t' ∈ fillAll stats tracks) {f : AudioFeature}
    (hf : f ∈ AUDIO_FEATURES) :
    ∃ t ∈ tracks, auGet t' f = some ((auGet t f).getD (stats f)) := by
  rcases List.mem_map.1 h with ⟨t, ht, rfl⟩
  exact ⟨t, ht, auGet_foldl_fill_mem stats f _ t hf AUDIO_FEATURES_nodup⟩

theorem fillAll_features_imputed {stats : AudioFeature → ℚ} {tracks : List Track}
    {t' : Track} (h : t' ∈ fillAll stats tracks) :
    ∃ t ∈ tracks, t'.features_imputed = t.features_imputed := by
  rcases List.mem_map.1 h with ⟨t, ht, rfl⟩
  exact ⟨t, ht, features_imputed_foldl_fill _ _ t⟩

theorem pyMedian_singleton (v : ℚ) : pyMedian [v] = v := by
  simp [pyMedian, sortRat, insertSorted]

theorem mem_knownValues {tracks : List Track} {t : Track} {f : AudioFeature}
    {w : ℚ} (ht : t ∈ tracks) (hw : auGet t f = some w) :
    w ∈ knownValues tracks f :=
  List.mem_filterMap.2 ⟨t, ht, hw⟩

theorem knownValues_length_of_all_some {f : AudioFeature} :
    ∀ {tracks : List Track}, (∀ t ∈ tracks, (auGet t f).isSome) →
      (knownValues tracks f).length = tracks.length := by
  intro tracks
  induction tracks with
  | nil => intro _; rfl
  | cons t ts ih =>
    intro h
    have hs := h t (List.mem_cons_self t ts)
    rcases Option.isSome_iff_exists.1 hs with ⟨v, hv⟩
    simp only [knownValues, List.filterMap_cons, hv, List.length_cons]
    exact congrArg Nat.succ (ih fun u hu => h u (List.mem_cons_of_mem t hu))

theorem completeCount_le_knownValues {f : AudioFeature} (hf : f ∈ AUDIO_FEATURES) :
    ∀ tracks : List Track, completeCount tracks ≤ (knownValues tracks f).length := by
  intro tracks
  induction tracks with
  | nil => exact Nat.le_refl 0
  | cons t ts ih =>
    by_cases hm : trackHasMissing t
    · have h1 : completeCount (t :: ts) = completeCount ts := by
        simp [completeCount, List.filter_cons, hm]
      have h2 : (knownValues ts f).length ≤ (knownValues (t :: ts) f).length := by
        simp only [knownValues, List.filterMap_cons]
        cases auGet t f <;> simp
      exact h1 ▸ Nat.le_trans ih h2
    · have hsome : (auGet t f).isSome := by
        by_contra hnone
        exact hm (List.any_eq_true.2 ⟨f, hf, by
          simpa [Option.isNone_iff_eq_none] using
            Option.not_isSome_iff_eq_none.1 hnone⟩)
      rcases Option.isSome_iff_exists.1 hsome with ⟨v, hv⟩
      have h1 : completeCount (t :: ts) = completeCount ts + 1 := by
        simp [completeCount, List.filter_cons, hm]
      have h2 : (knownValues (t :: ts) f).length = (knownValues ts f).length + 1 := by
        simp [knownValues, List.filterMap_cons, hv]
      rw [h1, h2]
      exact Nat.succ_le_succ ih

/-- When a batch of at least 3 tracks has a descriptor with at most one
known value, `impute_missing_features` takes its `_statistical_imputation`
branch: there are missing entries, and at most one complete case. -/
theorem impute_eq_statistical {tracks : List Track} {f : AudioFeature}
    (hf : f ∈ AUDIO_FEATURES) (h3 : 3 ≤ tracks.length)
    (hkv : (knownValues tracks f).length ≤ 1) :
    impute_missing_features tracks = some (statistical_imputation tracks) := by
  have hex : ∃ t ∈ tracks, auGet t f = none := by
    by_contra hc
    push_neg at hc
    have hall : ∀ t ∈ tracks, (auGet t f).isSome := by
      intro t ht
      exact Option.isSome_iff_ne_none.2 (hc t ht)
    have := knownValues_length_of_all_some hall
    omega
  rcases hex with ⟨t0, ht0, hnone⟩
  have hmiss : trackHasMissing t0 = true :=
    List.any_eq_true.2 ⟨f, hf, by simp [hnone]⟩
  have hallfalse : ¬ (tracks.all (fun t => !trackHasMissing t) = true) := by
    intro hall
    have := List.all_eq_true.1 hall t0 ht0
    rw [hmiss] at this
    cases this
  have hcc : completeCount tracks < 3 :=
    Nat.lt_of_le_of_lt (completeCount_le_knownValues hf tracks) (by omega)
  unfold impute_missing_features
  rw [if_neg (by omega), if_neg hallfalse, if_neg (by omega)]

/-- **C2, counterexample.** The claim states that a descriptor with fewer
than 2 known values (here `danceability`, with the single known value
`9/10`) has its missing entries filled with the documented default `1/2`.
On this batch `impute_missing_features` takes the `_statistical_imputation`
branch, whose statistic is the median of the known values - the single
sample `9/10` itself - so both missing entries receive `9/10`, a value
derived from the single known sample, not the default. -/
theorem c2_counterexample :
    knownValues c2Batch .danceability = [(9 : ℚ)/10] ∧
    (impute_missing_features c2Batch).map
        (fun out => out.map (fun t => auGet t .danceability))
      = some [some ((9 : ℚ)/10), some ((9 : ℚ)/10), some ((9 : ℚ)/10)] ∧
    (9 : ℚ)/10 ≠ (FEATURE_DEFAULTS .danceability).getD 0 := by
  refine ⟨rfl, rfl, ?_⟩
  norm_num [FEATURE_DEFAULTS]

/-- **C2 (amended).** For every batch of at least 3 tracks and every
descriptor handled by the imputation engine: if the descriptor has no known
value across the batch, every track ends with the descriptor's documented
default; but if it has exactly one known value `v`, every track ends with
`v` itself (the median of the singleton sample list) - the statistical
fallback fills from the single known sample rather than from the default
table. -/
theorem c2_amended_single_sample (tracks : List Track) (f : AudioFeature)
    (hf : f ∈ AUDIO_FEATURES) (h3 : 3 ≤ tracks.length) :
    (∀ v : ℚ, knownValues tracks f = [v] →
       ∃ out, impute_missing_features tracks = some out ∧
         ∀ t' ∈ out, auGet t' f = some v) ∧
    (knownValues tracks f = [] →
       ∃ out, impute_missing_features tracks = some out ∧
         ∀ t' ∈ out, auGet t' f = some (defaultOf f)) := by
  constructor
  · intro v hkv
    refine ⟨_, impute_eq_statistical hf h3 (by rw [hkv]; exact Nat.le_refl 1), ?_⟩
    intro t' ht'
    rcases fillAll_auGet ht' hf with ⟨t, ht, heq⟩
    have hstats : featureStats tracks f = v := by
      rw [featureStats, hkv]
      simp [pyMedian_singleton]
    rw [heq, hstats]
    cases hg : auGet t f with
    | none => simp
    | some w =>
      have hw : w ∈ knownValues tracks f := mem_knownValues ht hg
      rw [hkv, List.mem_singleton] at hw
      simp [hw]
  · intro hkv
    refine ⟨_, impute_eq_statistical hf h3 (by rw [hkv]; exact Nat.zero_le 1), ?_⟩
    intro t' ht'
    rcases fillAll_auGet ht' hf with ⟨t, ht, heq⟩
    have hstats : featureStats tracks f = defaultOf f := by
      rw [featureStats, hkv]
      rfl
    have hg : auGet t f = none := by
      have := List.filterMap_eq_nil_iff.1 hkv
      exact this t ht
    rw [heq, hstats, hg]
    rfl

/-- Witness for C2's amended theorem at the concrete batch: every track
ends with danceability `9/10`, the single known sample. -/
theorem c2_amended_single_sample_witness :
    ∃ out, impute_missing_features c2Batch = some out ∧
      ∀ t' ∈ out, auGet t' .danceability = some ((9 : ℚ)/10) :=
  (c2_amended_single_sample c2Batch .danceability (by decide) (by decide)).1
    ((9 : ℚ)/10) rfl

/-- **C3.** The imputation engine never touches the `features_imputed`
flag: after `impute_missing_features` returns, every track carries exactly
the flag value it entered with (first conjunct, all branches of the
embedded code).  In particular, on a concrete batch whose descriptors are
all missing, every descriptor is filled in (danceability becomes the
default `1/2`) yet `features_imputed` remains `False`, contradicting the
claim that every touched track is marked imputed. -/
theorem c3_imputed_flag_never_set :
    (∀ (tracks out : List Track), impute_missing_features tracks = some out →
       out.map Track.features_imputed = tracks.map Track.features_imputed) ∧
    (impute_missing_features c3Batch).map
        (fun out => out.map (fun t => (auGet t .danceability, t.features_imputed)))
      = some [(some ((1 : ℚ)/2), false), (some ((1 : ℚ)/2), false)] := by
  constructor
  · intro tracks out h
    have hfill : ∀ stats, (fillAll stats tracks).map Track.features_imputed
        = tracks.map Track.features_imputed := by
      intro stats
      rw [fillAll, List.map_map]
      exact List.map_congr_left fun t _ => features_imputed_foldl_fill stats _ t
    unfold impute_missing_features at h
    split at h
    · cases h; exact hfill _
    · split at h
      · cases h; rfl
      · split at h
        · cases h
        · cases h; exact hfill _
  · rfl

/-! ### Claim C1: the clusters returned by `cluster_tracks` partition the input -/

theorem groupElems_cons (k : Int) (ps : List (Nat × Track))
    (tl : List (Int × List (Nat × Track))) :
    ClusteringService.groupElems ((k, ps) :: tl)
      = ps ++ ClusteringService.groupElems tl := rfl

theorem groupElems_groupInsert (acc : List (Int × List (Nat × Track)))
    (key : Int) (p : Nat × Track) :
    List.Perm (ClusteringService.groupElems (ClusteringService.groupInsert acc key p))
      (ClusteringService.groupElems acc ++ [p]) := by
  induction acc with
  | nil => simp [ClusteringService.groupInsert, ClusteringService.groupElems]
  | cons hd tl ih =>
    obtain ⟨k, ps⟩ := hd
    by_cases hk : k = key
    · rw [ClusteringService.groupInsert, if_pos hk, groupElems_cons, groupElems_cons,
        List.append_assoc, List.append_assoc]
      refine List.Perm.append_left ps ?_
      simpa using @List.perm_append_comm _ [p] (ClusteringService.groupElems tl)
    · rw [ClusteringService.groupInsert, if_neg hk, groupElems_cons, groupElems_cons,
        List.append_assoc]
      exact List.Perm.append_left ps ih

theorem groupElems_foldl (pairs : List (Nat × Int × Track)) :
    ∀ acc, List.Perm
      (ClusteringService.groupElems
        (pairs.foldl (fun acc ip => ClusteringService.groupInsert acc ip.2.1 (ip.1, ip.2.2)) acc))
      (ClusteringService.groupElems acc ++ pairs.map (fun ip => (ip.1, ip.2.2))) := by
  induction pairs with
  | nil => intro acc; simp
  | cons q qs ih =>
    intro acc
    rw [List.foldl_cons]
    refine (ih _).trans ?_
    have h1 := (groupElems_groupInsert acc q.2.1 (q.1, q.2.2)).append_right
      (qs.map (fun ip => (ip.1, ip.2.2)))
    refine h1.trans ?_
    rw [List.append_assoc]
    rfl

theorem groupElems_clustersDict (pairs : List (Nat × Int × Track)) :
    List.Perm (ClusteringService.groupElems (ClusteringService.clustersDict pairs))
      (pairs.map (fun ip => (ip.1, ip.2.2))) := by
  simpa [ClusteringService.groupElems] using groupElems_foldl pairs []

theorem mkClusterData_flatten_perm (labels : List Int) (tracks : List Track)
    (hlen : labels.length = tracks.length) :
    List.Perm ((ClusteringService.mkClusterData labels tracks).map
        ClusteringService.ClusterData.track_ids).flatten
      (tracks.map Track.id) := by
  have h1 : ((ClusteringService.mkClusterData labels tracks).map
        ClusteringService.ClusterData.track_ids)
      = ((ClusteringService.clustersDict ((labels.zip tracks).enum)).map Prod.snd).map
          (List.map (fun q : Nat × Track => q.2.id)) := by
    rw [ClusteringService.mkClusterData, List.map_map, List.map_map]
    refine List.map_congr_left (fun g _ => ?_)
    simp [Function.comp, List.map_map]
  rw [h1, ← List.map_flatten]
  have h2 := (groupElems_clustersDict ((labels.zip tracks).enum)).map
    (fun q : Nat × Track => q.2.id)
  refine (h2.trans ?_)
  rw [List.map_map]
  have h3 : ((labels.zip tracks).enum).map
        ((fun q : Nat × Track => q.2.id) ∘ (fun ip : Nat × Int × Track => (ip.1, ip.2.2)))
      = ((labels.zip tracks).enum).map ((fun lt : Int × Track => lt.2.id) ∘ Prod.snd) := rfl
  rw [h3, ← List.map_map, List.enum_map_snd]
  have h4 : (labels.zip tracks).map (fun lt : Int × Track => lt.2.id)
      = ((labels.zip tracks).map Prod.snd).map Track.id := by
    rw [List.map_map]
    rfl
  rw [h4, List.map_snd_zip labels tracks (le_of_eq hlen.symm)]

theorem mkClusterData_count_sum (labels : List Int) (tracks : List Track)
    (hlen : labels.length = tracks.length) :
    ((ClusteringService.mkClusterData labels tracks).map
        ClusteringService.ClusterData.track_count).sum = tracks.length := by
  have h1 : (ClusteringService.mkClusterData labels tracks).map
        ClusteringService.ClusterData.track_count
      = ((ClusteringService.mkClusterData labels tracks).map
          ClusteringService.ClusterData.track_ids).map List.length := by
    rw [ClusteringService.mkClusterData, List.map_map, List.map_map, List.map_map]
    refine List.map_congr_left (fun g _ => ?_)
    simp [Function.comp]
  rw [h1, ← List.length_flatten,
    (mkClusterData_flatten_perm labels tracks hlen).length_eq, List.length_map]

theorem deduplicate_labels_map_track_ids (cs : List ClusteringService.ClusterData) :
    (ClusteringService.deduplicate_labels cs).map ClusteringService.ClusterData.track_ids
      = cs.map ClusteringService.ClusterData.track_ids := by
  unfold ClusteringService.deduplicate_labels
  split
  · rfl
  · rw [List.map_map]
    refine List.map_congr_left (fun c _ => ?_)
    simp only [Function.comp]
    split <;> rfl

theorem deduplicate_labels_map_track_count (cs : List ClusteringService.ClusterData) :
    (ClusteringService.deduplicate_labels cs).map ClusteringService.ClusterData.track_count
      = cs.map ClusteringService.ClusterData.track_count := by
  unfold ClusteringService.deduplicate_labels
  split
  · rfl
  · rw [List.map_map]
    refine List.map_congr_left (fun c _ => ?_)
    simp only [Function.comp]
    split <;> rfl

theorem sortClustersBySize_perm (cs : List ClusteringService.ClusterData) :
    List.Perm (ClusteringService.sortClustersBySize cs) cs :=
  List.mergeSort_perm cs _

theorem apply_clustering_algorithm_ok {run : String → List Int} {method : String}
    {labels : List Int}
    (h : ClusteringService.apply_clustering_algorithm run method = .ok labels) :
    labels = run method := by
  unfold ClusteringService.apply_clustering_algorithm at h
  split_ifs at h <;> exact (Except.ok.inj h).symm

/-- **C1.** For every input of at least 2 tracks with pairwise distinct ids,
and every label array the external estimator can return (one label per
track), the clusters returned by `cluster_tracks` partition the input: the
cluster member lists jointly enumerate the input track ids exactly once (a
permutation), every input id appears in exactly one position of them, and
the cluster sizes sum to the number of tracks.  The statement quantifies
over the estimator oracle, so it covers every algorithm path, including the
density-based path after noise reassignment. -/
theorem c1_clusters_partition_input (run : String → List Int) (silRaw : Option ℚ)
    (tracks : List Track) (method : String)
    (clusters : List ClusteringService.ClusterData) (sil : ℚ)
    (hids : (tracks.map Track.id).Nodup)
    (hlen : (run method).length = tracks.length)
    (hok : ClusteringService.cluster_tracks run silRaw tracks method
      = .ok (clusters, sil)) :
    List.Perm ((clusters.map ClusteringService.ClusterData.track_ids).flatten)
        (tracks.map Track.id) ∧
    (∀ i, i ∈ tracks.map Track.id →
      ((clusters.map ClusteringService.ClusterData.track_ids).flatten).count i = 1) ∧
    (clusters.map ClusteringService.ClusterData.track_count).sum = tracks.length := by
  unfold ClusteringService.cluster_tracks at hok
  split at hok
  · cases hok
  · cases happ : ClusteringService.apply_clustering_algorithm run method with
    | error e => rw [happ] at hok; cases hok
    | ok labels =>
      rw [happ] at hok
      simp only [Except.ok.injEq, Prod.mk.injEq] at hok
      obtain ⟨hcl, -⟩ := hok
      have hlab : labels = run method := apply_clustering_algorithm_ok happ
      have hlablen : labels.length = tracks.length := by rw [hlab]; exact hlen
      have hperm : List.Perm
          ((clusters.map ClusteringService.ClusterData.track_ids).flatten)
          (tracks.map Track.id) := by
        rw [← hcl, deduplicate_labels_map_track_ids]
        refine List.Perm.trans ?_ (mkClusterData_flatten_perm labels tracks hlablen)
        exact ((sortClustersBySize_perm _).map _).flatten
      refine ⟨hperm, ?_, ?_⟩
      · intro i hi
        rw [hperm.count_eq]
        exact List.count_eq_one_of_mem hids hi
      · rw [← hcl, deduplicate_labels_map_track_count]
        have := ((sortClustersBySize_perm (ClusteringService.mkClusterData labels tracks)).map
          ClusteringService.ClusterData.track_count).sum_eq
        rw [this]
        exact mkClusterData_count_sum labels tracks hlablen

/-- Witness for C1 at a concrete run: two tracks, a constant estimator. -/
theorem c1_clusters_partition_input_witness :
    List.Perm ((((ClusteringService.cluster_tracks (fun _ => [0, 0]) none
        [{ id := 7 }, { id := 9 }] "kmeans").toOption.getD ([], 0)).1.map
          ClusteringService.ClusterData.track_ids).flatten)
      [7, 9] := by
  have h := c1_clusters_partition_input (fun _ => [0, 0]) none
    [{ id := 7 }, { id := 9 }] "kmeans"
    (((ClusteringService.cluster_tracks (fun _ => [0, 0]) none
        [{ id := 7 }, { id := 9 }] "kmeans").toOption.getD ([], 0)).1)
    (((ClusteringService.cluster_tracks (fun _ => [0, 0]) none
        [{ id := 7 }, { id := 9 }] "kmeans").toOption.getD ([], 0)).2)
    (by decide) (by decide) rfl
  exact h.1

/-! ### Claims C7-C10 -/

theorem compute_silhouette_bounds (silRaw : Option ℚ) (labels : List Int)
    (nSamples : Nat) (hb : ∀ s, silRaw = some s → -1 ≤ s ∧ s ≤ 1) :
    -1 ≤ ClusteringService.compute_silhouette silRaw labels nSamples ∧
      ClusteringService.compute_silhouette silRaw labels nSamples ≤ 1 := by
  unfold ClusteringService.compute_silhouette
  split
  · cases hs : silRaw with
    | none => norm_num
    | some s => simpa using hb s hs
  · norm_num

theorem compute_silhouette_undefined (silRaw : Option ℚ) (labels : List Int)
    (nSamples : Nat)
    (h : ClusteringService.distinctLabelCount labels < 2 ∨
      nSamples ≤ ClusteringService.distinctLabelCount labels) :
    ClusteringService.compute_silhouette silRaw labels nSamples = 0 := by
  unfold ClusteringService.compute_silhouette
  rw [if_neg]
  rintro ⟨h1, h2⟩
  omega

/-- **C7.**  Whenever `cluster_tracks` succeeds, the silhouette score it
returns lies in `[-1, 1]` - given that the external `silhouette_score`
call, when consulted, returns a value in its documented range `[-1, 1]` -
and it is exactly `0` whenever the score is undefined: fewer than 2
distinct labels, or at least as many distinct labels as input tracks. -/
theorem c7_silhouette_range_and_default (run : String → List Int)
    (silRaw : Option ℚ) (tracks : List Track) (method : String)
    (clusters : List ClusteringService.ClusterData) (sil : ℚ)
    (hb : ∀ s, silRaw = some s → -1 ≤ s ∧ s ≤ 1)
    (hok : ClusteringService.cluster_tracks run silRaw tracks method
      = .ok (clusters, sil)) :
    (-1 ≤ sil ∧ sil ≤ 1) ∧
    (∀ labels : List Int,
      ClusteringService.apply_clustering_algorithm run method = .ok labels →
      (ClusteringService.distinctLabelCount labels < 2 ∨
        tracks.length ≤ ClusteringService.distinctLabelCount labels) →
      sil = 0) := by
  unfold ClusteringService.cluster_tracks at hok
  split at hok
  · cases hok
  · cases happ : ClusteringService.apply_clustering_algorithm run method with
    | error e => rw [happ] at hok; cases hok
    | ok labels0 =>
      rw [happ] at hok
      simp only [Except.ok.injEq, Prod.mk.injEq] at hok
      obtain ⟨-, hsil⟩ := hok
      constructor
      · rw [← hsil]
        exact compute_silhouette_bounds silRaw labels0 tracks.length hb
      · intro labels happ2 hcond
        have hl : labels = labels0 := (Except.ok.inj happ2).symm
        subst hl
        rw [← hsil]
        exact compute_silhouette_undefined silRaw labels tracks.length hcond

/-- Witness for C7 at a concrete run: two tracks, both assigned the same
label, so the score is undefined and comes out as `0`. -/
theorem c7_silhouette_range_and_default_witness :
    -1 ≤ (((ClusteringService.cluster_tracks (fun _ => [0, 0]) none
        [{ id := 7 }, { id := 9 }] "kmeans").toOption.getD ([], 0)).2 : ℚ) ∧
    (((ClusteringService.cluster_tracks (fun _ => [0, 0]) none
        [{ id := 7 }, { id := 9 }] "kmeans").toOption.getD ([], 0)).2 : ℚ) = 0 := by
  have h := c7_silhouette_range_and_default (fun _ => [0, 0]) none
    [{ id := 7 }, { id := 9 }] "kmeans"
    (((ClusteringService.cluster_tracks (fun _ => [0, 0]) none
        [{ id := 7 }, { id := 9 }] "kmeans").toOption.getD ([], 0)).1)
    (((ClusteringService.cluster_tracks (fun _ => [0, 0]) none
        [{ id := 7 }, { id := 9 }] "kmeans").toOption.getD ([], 0)).2)
    (fun s hs => by cases hs) rfl
  exact ⟨h.1.1, h.2 [0, 0] rfl (by decide)⟩

/-- **C9.**  `cluster_tracks` rejects inputs of fewer than 2 tracks with a
`ValueError` surfaced to the caller, and the clustering dispatcher rejects
every method name other than the four supported ones with a `ValueError`,
for every behaviour of the external estimators. -/
theorem c9_rejected_inputs (run : String → List Int) (silRaw : Option ℚ) :
    (∀ (tracks : List Track) (method : String), tracks.length < 2 →
      ClusteringService.cluster_tracks run silRaw tracks method
        = .error "Need at least 2 tracks for clustering") ∧
    (∀ method : String,
      method ∉ (["kmeans", "dbscan", "gaussian_mixture", "spectral"] : List String) →
      ClusteringService.apply_clustering_algorithm run method
        = .error ("Unsupported clustering method: " ++ method)) := by
  constructor
  · intro tracks method h
    unfold ClusteringService.cluster_tracks
    rw [if_pos h]
  · intro method h
    unfold ClusteringService.apply_clustering_algorithm
    rw [if_neg (fun he => h (by rw [he]; decide)),
      if_neg (fun he => h (by rw [he]; decide)),
      if_neg (fun he => h (by rw [he]; decide)),
      if_neg (fun he => h (by rw [he]; decide))]

/-- Witness for C9: a single-track list is rejected, and the method name
`"ward"` is rejected by the dispatcher. -/
theorem c9_rejected_inputs_witness :
    ClusteringService.cluster_tracks (fun _ => []) none [{ id := 1 }] "kmeans"
      = .error "Need at least 2 tracks for clustering" ∧
    ClusteringService.apply_clustering_algorithm (fun _ => []) "ward"
      = .error ("Unsupported clustering method: " ++ "ward") :=
  ⟨(c9_rejected_inputs (fun _ => []) none).1 [{ id := 1 }] "kmeans" (by decide),
   (c9_rejected_inputs (fun _ => []) none).2 "ward" (by decide)⟩

/-- **C10.**  For fewer than 2 tracks, `get_pca_coordinates` returns the
empty list (no error), for every behaviour of the abstracted PCA pipeline -
unlike `cluster_tracks`, which rejects the same input with a `ValueError`. -/
theorem c10_pca_empty_on_small_input (pipeline : List Track → List (Nat × ℚ × ℚ))
    (run : String → List Int) (silRaw : Option ℚ)
    (tracks : List Track) (method : String) (h : tracks.length < 2) :
    ClusteringService.get_pca_coordinates pipeline tracks = [] ∧
    ClusteringService.cluster_tracks run silRaw tracks method
      = .error "Need at least 2 tracks for clustering" := by
  constructor
  · unfold ClusteringService.get_pca_coordinates
    rw [if_pos h]
  · unfold ClusteringService.cluster_tracks
    rw [if_pos h]

/-- Witness for C10 on a concrete single-track input. -/
theorem c10_pca_empty_on_small_input_witness :
    ClusteringService.get_pca_coordinates (fun _ => [(1, 0, 0)]) [{ id := 4 }] = [] ∧
    ClusteringService.cluster_tracks (fun _ => [0]) none [{ id := 4 }] "dbscan"
      = .error "Need at least 2 tracks for clustering" :=
  c10_pca_empty_on_small_input (fun _ => [(1, 0, 0)]) (fun _ => [0]) none
    [{ id := 4 }] "dbscan" (by decide)

/-! ### Claim C4: the loudness log transform is dead for the typical range -/

/-- **C4.**  The feature preprocessor never log-transforms a loudness value
in the typical -60..0 dB range: the source guards the transform with
`value > 0`, which is false throughout that range, so the raw decibel value
is passed to standardization unchanged.  In particular, at loudness
`-10` dB the clustering-matrix entry is `-10` and differs from the
`ln(max(loudness+60,1)) = ln 50` the specification prescribes, for every
possible logarithm function with `ln 50 ≠ -10` (true of the real
logarithm, which is positive at 50). -/
theorem c4_loudness_log_guard_dead (ln : ℚ → ℚ) :
    (∀ v : ℚ, v ≤ 0 → ClusteringService.clusteringValue ln .loudness v = v) ∧
    (ln 50 ≠ -10 →
      ClusteringService.clusteringValue ln .loudness (-10) = -10 ∧
      ClusteringService.clusteringValue ln .loudness (-10)
        ≠ ln (max ((-10 : ℚ) + 60) 1)) := by
  have hid : ∀ v : ℚ, v ≤ 0 → ClusteringService.clusteringValue ln .loudness v = v := by
    intro v hv
    unfold ClusteringService.clusteringValue
    rw [if_neg]
    rintro ⟨-, hpos⟩
    exact absurd hv (not_le.2 hpos)
  refine ⟨hid, fun hln => ⟨hid _ (by norm_num), ?_⟩⟩
  rw [hid _ (by norm_num)]
  have h50 : max ((-10 : ℚ) + 60) 1 = 50 := by norm_num
  rw [h50]
  exact fun he => hln he.symm

/-- Witness for C4 with a concrete substitute for the logarithm. -/
theorem c4_loudness_log_guard_dead_witness :
    ClusteringService.clusteringValue (fun _ => (0 : ℚ)) .loudness (-10) = -10 ∧
    ClusteringService.clusteringValue (fun _ => (0 : ℚ)) .loudness (-10)
      ≠ (fun _ => (0 : ℚ)) (max ((-10 : ℚ) + 60) 1) :=
  (c4_loudness_log_guard_dead (fun _ => 0)).2 (by norm_num)

/-! ### Claim C8: colliding base labels can stay identical after de-duplication -/

/-- **C8.**  `_deduplicate_labels` appends the coarse-bucket descriptor to
colliding labels but never disambiguates further (its `seen` counter is
dead code), so two clusters that compute the identical base label *and*
identical coarse buckets keep identical final labels, contradicting both
the claim and the function's own docstring ("Ensure cluster labels are
unique").  On the concrete input both clusters end with the very same
string, so the output label list is not duplicate-free. -/
theorem c8_colliding_labels_stay_equal :
    (ClusteringService.deduplicate_labels c8Clusters).map
        ClusteringService.ClusterData.label
      = [some "Balanced mix (E5-D5-V5)", some "Balanced mix (E5-D5-V5)"] ∧
    ¬ ((ClusteringService.deduplicate_labels c8Clusters).map
        ClusteringService.ClusterData.label).Nodup := by
  have hb : ClusteringService.bucket 1 = 5 := by
    norm_num [ClusteringService.bucket, ClusteringService.pyRound]
  have hdesc1 : ClusteringService.clusterDescriptor c8a = "E5-D5-V5" := by
    rw [ClusteringService.clusterDescriptor]
    show "E" ++ toString (ClusteringService.bucket 1) ++ "-D" ++
      toString (ClusteringService.bucket 1) ++ "-V" ++
      toString (ClusteringService.bucket 1) = "E5-D5-V5"
    rw [hb]
    decide
  have hdesc2 : ClusteringService.clusterDescriptor c8b = "E5-D5-V5" := by
    rw [ClusteringService.clusterDescriptor]
    show "E" ++ toString (ClusteringService.bucket 1) ++ "-D" ++
      toString (ClusteringService.bucket 1) ++ "-V" ++
      toString (ClusteringService.bucket 1) = "E5-D5-V5"
    rw [hb]
    decide
  have h1 : (ClusteringService.deduplicate_labels c8Clusters).map
      ClusteringService.ClusterData.label
      = [some "Balanced mix (E5-D5-V5)", some "Balanced mix (E5-D5-V5)"] := by
    rw [ClusteringService.deduplicate_labels, if_neg (by decide)]
    show (List.map _ [c8a, c8b]).map ClusteringService.ClusterData.label = _
    simp only [List.map_cons, List.map_nil]
    rw [if_pos (show 1 < ClusteringService.countLabel c8Clusters
        (ClusteringService.labelOrCluster c8a.label) by decide)]
    rw [if_pos (show 1 < ClusteringService.countLabel c8Clusters
        (ClusteringService.labelOrCluster c8b.label) by decide)]
    rw [show (ClusteringService.labelOrCluster c8a.label) = "Balanced mix" from rfl,
      show (ClusteringService.labelOrCluster c8b.label) = "Balanced mix" from rfl,
      hdesc1, hdesc2]
    decide
  refine ⟨h1, ?_⟩
  rw [h1]
  decide

/-- Witness for C3's universally quantified conjunct at the concrete batch. -/
theorem c3_imputed_flag_never_set_witness :
    (fill_with_defaults c3Batch).map Track.features_imputed
      = c3Batch.map Track.features_imputed :=
  c3_imputed_flag_never_set.1 c3Batch (fill_with_defaults c3Batch) rfl

/-! ### Claim C5: bounds of the automatic cluster-count selection -/

theorem idxOfMax_lt : ∀ xs : List ℚ, xs ≠ [] →
    ClusteringService.idxOfMax xs < xs.length := by
  intro xs
  induction xs with
  | nil => intro h; exact absurd rfl h
  | cons x ys ih =>
    intro _
    cases ys with
    | nil => simp [ClusteringService.idxOfMax]
    | cons y zs =>
      rw [ClusteringService.idxOfMax]
      split
      · exact Nat.succ_lt_succ (ih (by simp))
      · simp

theorem compositeScores_length (results : List (Nat × ClusteringService.EvalMetrics)) :
    (ClusteringService.compositeScores results).length = results.length := by
  simp [ClusteringService.compositeScores]

theorem select_optimal_k_mem (results : List (Nat × ClusteringService.EvalMetrics))
    (h : results ≠ []) :
    ClusteringService.select_optimal_k_multi_criteria results
      ∈ results.map Prod.fst := by
  match results with
  | [] => exact absurd rfl h
  | [r] => simp [ClusteringService.select_optimal_k_multi_criteria]
  | r0 :: r1 :: rs =>
    rw [ClusteringService.select_optimal_k_multi_criteria]
    have hcsne : ClusteringService.compositeScores (r0 :: r1 :: rs) ≠ [] := by
      intro hnil
      have hl := compositeScores_length (r0 :: r1 :: rs)
      rw [hnil] at hl
      simp at hl
    have hlt : ClusteringService.idxOfMax
        (ClusteringService.compositeScores (r0 :: r1 :: rs))
        < ((r0 :: r1 :: rs).map Prod.fst).length := by
      rw [List.length_map, ← compositeScores_length (r0 :: r1 :: rs)]
      exact idxOfMax_lt _ hcsne
    rw [List.getD_eq_getElem _ _ hlt]
    exact List.getElem_mem hlt

/-- **C5, counterexample.**  At `N = 2` the claim fails: with no explicit
count, `_find_optimal_clusters` returns `min(len(features)-1, 2) = 1`,
which violates the claimed lower bound `2 ≤ k` (indeed `[2, min(8, N-1)]`
is empty for `N = 2`). -/
theorem c5_counterexample :
    ClusteringService.find_optimal_clusters (fun _ => none) 2 8 = 1 ∧ ¬ (2 ≤ 1) :=
  ⟨rfl, by decide⟩

/-- **C5 (amended).**  For every feature matrix with `N ≥ 3` rows and no
explicit count supplied, automatic cluster-count selection returns a `k`
with `2 ≤ k ≤ min(8, N−1)`, whatever the external metric evaluations do
(each candidate may yield metrics or be skipped).  For `N = 2` the code
returns `1` instead (see the counterexample). -/
theorem c5_amended_bounds (evalAt : Nat → Option ClusteringService.EvalMetrics)
    (n : Nat) (h3 : 3 ≤ n) :
    2 ≤ ClusteringService.find_optimal_clusters evalAt n 8 ∧
      ClusteringService.find_optimal_clusters evalAt n 8 ≤ min 8 (n - 1) := by
  unfold ClusteringService.find_optimal_clusters
  split
  · have hn : n = 3 := by omega
    subst hn
    constructor <;> decide
  · have h4 : 4 ≤ n := by omega
    have hM : 3 ≤ min 8 (n - 1) := by omega
    split
    · exact ⟨Nat.le_refl 2, by omega⟩
    · have hne : ((List.range' 2 (min 8 (n - 1) - 1)).filterMap
          (fun k => (evalAt k).map (fun m => (k, m)))) ≠ [] := by
        intro hnil
        simp [hnil] at *
      have hmem := select_optimal_k_mem _ hne
      rcases List.mem_map.1 hmem with ⟨r, hr, hfst⟩
      rcases List.mem_filterMap.1 hr with ⟨a, ha, hval⟩
      rcases Option.map_eq_some'.1 hval with ⟨m, -, hrm⟩
      have hra : r.1 = a := by rw [← hrm]
      rw [← hfst, hra]
      have hb := List.mem_range'_1.1 ha
      exact ⟨hb.1, by omega⟩

/-- Witness for C5's amended theorem: five samples, every candidate
skipped, so the selection defaults to `k = 2`, inside `[2, min(8, 4)]`. -/
theorem c5_amended_bounds_witness :
    2 ≤ ClusteringService.find_optimal_clusters (fun _ => none) 5 8 ∧
      ClusteringService.find_optimal_clusters (fun _ => none) 5 8 ≤ min 8 (5 - 1) :=
  c5_amended_bounds (fun _ => none) 5 (by decide)

/-! ### Claim C6: DBSCAN noise reassignment and 1-based renumbering -/

theorem mem_insertSortedInt {a x : Int} : ∀ {ys : List Int},
    (a ∈ ClusteringService.insertSortedInt x ys ↔ a = x ∨ a ∈ ys) := by
  intro ys
  induction ys with
  | nil => simp [ClusteringService.insertSortedInt]
  | cons y ys ih =>
    rw [ClusteringService.insertSortedInt]
    split
    · simp
    · simp only [List.mem_cons, ih]
      tauto

theorem mem_sortInt {a : Int} : ∀ {xs : List Int},
    (a ∈ ClusteringService.sortInt xs ↔ a ∈ xs) := by
  intro xs
  induction xs with
  | nil => simp [ClusteringService.sortInt]
  | cons x xs ih =>
    show a ∈ ClusteringService.insertSortedInt x (ClusteringService.sortInt xs) ↔ _
    rw [mem_insertSortedInt, ih]
    simp

theorem idxOfMin_lt : ∀ xs : List ℚ, xs ≠ [] →
    ClusteringService.idxOfMin xs < xs.length := by
  intro xs
  induction xs with
  | nil => intro h; exact absurd rfl h
  | cons x ys ih =>
    intro _
    cases ys with
    | nil => simp [ClusteringService.idxOfMin]
    | cons y zs =>
      rw [ClusteringService.idxOfMin]
      split
      · exact Nat.succ_lt_succ (ih (by simp))
      · simp

theorem idxOfMin_min : ∀ (xs : List ℚ) (i : Nat), i < xs.length →
    xs.getD (ClusteringService.idxOfMin xs) 0 ≤ xs.getD i 0 := by
  intro xs
  induction xs with
  | nil => intro i h; cases h
  | cons x ys ih =>
    cases ys with
    | nil =>
      intro i hi
      have : i = 0 := by simpa using Nat.lt_one_iff.1 (by simpa using hi)
      subst this
      simp [ClusteringService.idxOfMin]
    | cons y zs =>
      intro i hi
      rw [ClusteringService.idxOfMin]
      split
      · rename_i hlt
        cases i with
        | zero => simpa using le_of_lt hlt
        | succ i' =>
          simp only [List.getD_cons_succ]
          exact ih i' (by simpa using Nat.lt_of_succ_lt_succ hi)
      · rename_i hnlt
        have hxle : x ≤ (y :: zs).getD (ClusteringService.idxOfMin (y :: zs)) 0 :=
          le_of_not_lt hnlt
        cases i with
        | zero => simp
        | succ i' =>
          simp only [List.getD_cons_zero, List.getD_cons_succ]
          exact le_trans hxle (ih i' (by simpa using Nat.lt_of_succ_lt_succ hi))

theorem sumSq_cons (a : ℚ) (x : List ℚ) :
    ClusteringService.sumSq (a :: x) = a ^ 2 + ClusteringService.sumSq x := by
  simp [ClusteringService.sumSq]

theorem dotProd_cons (a b : ℚ) (x c : List ℚ) :
    ClusteringService.dotProd (a :: x) (b :: c)
      = a * b + ClusteringService.dotProd x c := by
  simp [ClusteringService.dotProd]

theorem sqDist_cons (a b : ℚ) (x c : List ℚ) :
    ClusteringService.sqDist (a :: x) (b :: c)
      = (a - b) ^ 2 + ClusteringService.sqDist x c := by
  simp [ClusteringService.sqDist]

/-- The algebraic identity the reassignment code relies on: the `d2` matrix
entries are exactly the squared Euclidean distances (exact in rational
arithmetic). -/
theorem d2code_eq_sqDist : ∀ (x c : List ℚ), x.length = c.length →
    ClusteringService.d2code x c = ClusteringService.sqDist x c := by
  intro x
  induction x with
  | nil =>
    intro c hc
    cases c with
    | nil =>
      simp [ClusteringService.d2code, ClusteringService.sumSq,
        ClusteringService.dotProd, ClusteringService.sqDist]
    | cons b c' => cases hc
  | cons a x' ih =>
    intro c hc
    cases c with
    | nil => cases hc
    | cons b c' =>
      have hrec := ih c' (by simpa using hc)
      rw [ClusteringService.d2code, sumSq_cons, sumSq_cons, dotProd_cons,
        sqDist_cons, ← hrec, ClusteringService.d2code]
      ring

theorem getD_range_map_ofNat (k j : Nat) (h : j < k) :
    ((List.range k).map Int.ofNat).getD j 0 = (j : Int) := by
  rw [List.getD_eq_getElem _ _ (by simpa using h)]
  simp

/-- Where a noise point is sent: some real cluster `j < k` whose `d2`
distance is minimal among all `k` centroids. -/
theorem nearestCentroidLabel_spec (features : List (List ℚ)) (labels : List Int)
    (k : Nat) (hk : ClusteringService.uniqueNonNoise labels = (List.range k).map Int.ofNat)
    (h2 : 2 ≤ k) (x : List ℚ) :
    ∃ j : Nat, j < k ∧
      ClusteringService.nearestCentroidLabel features labels x = (j : Int) ∧
      ∀ jq : Nat, jq < k →
        ClusteringService.d2code x
            (ClusteringService.centroidOf features labels (features.headD []).length (j : Int))
          ≤ ClusteringService.d2code x
            (ClusteringService.centroidOf features labels (features.headD []).length (jq : Int)) := by
  unfold ClusteringService.nearestCentroidLabel
  rw [hk]
  set dim := (features.headD []).length with hdim
  set f : Int → ℚ := fun l => ClusteringService.d2code x
    (ClusteringService.centroidOf features labels dim l) with hf
  have hlen : (((List.range k).map Int.ofNat).map f).length = k := by simp
  have hne : ((List.range k).map Int.ofNat).map f ≠ [] := by
    intro hnil
    rw [hnil] at hlen
    simp at hlen
    omega
  set j0 := ClusteringService.idxOfMin (((List.range k).map Int.ofNat).map f) with hj0
  have hj0lt : j0 < k := by
    have := idxOfMin_lt _ hne
    rw [hlen] at this
    exact this
  refine ⟨j0, hj0lt, getD_range_map_ofNat k j0 hj0lt, ?_⟩
  intro jq hjq
  have hmin := idxOfMin_min (((List.range k).map Int.ofNat).map f) jq (by rw [hlen]; exact hjq)
  have hgd : ∀ m : Nat, m < k → (((List.range k).map Int.ofNat).map f).getD m 0 = f (m : Int) := by
    intro m hm
    rw [List.getD_eq_getElem _ _ (by simpa using hm)]
    simp
  rw [hgd j0 hj0lt, hgd jq hjq] at hmin
  exact hmin

/-- **C6.**  Whenever the density-based path accepts a DBSCAN trial (at
least 2 real clusters, noise ratio at most one half, labels obeying the
DBSCAN output contract: every label is `≥ -1` and the non-noise labels are
exactly `0..k-1`), the returned array has one label per track; every label
lies in `1..k` (no track left unclustered at the noise label `0`); every
value of `1..k` occurs, so the labels are numbered consecutively from 1;
and every noise point is reassigned to a cluster whose centroid is at
minimal squared Euclidean distance from it. -/
theorem c6_dbscan_accept_reassignment (features : List (List ℚ)) (labels : List Int)
    (k : Nat)
    (hk : ClusteringService.uniqueNonNoise labels = (List.range k).map Int.ofNat)
    (h2 : 2 ≤ k)
    (hlab : ∀ l ∈ labels, -1 ≤ l)
    (_hnoise : 2 * labels.count (-1) ≤ labels.length)
    (hflen : features.length = labels.length)
    (hdim : ∀ r ∈ features, r.length = (features.headD []).length) :
    (ClusteringService.dbscan_accept_branch features labels).length = labels.length ∧
    (∀ m ∈ ClusteringService.dbscan_accept_branch features labels,
      1 ≤ m ∧ m ≤ (k : Int)) ∧
    (∀ j : Nat, 1 ≤ j → j ≤ k →
      (j : Int) ∈ ClusteringService.dbscan_accept_branch features labels) ∧
    (∀ i, i < labels.length → labels.getD i 0 = -1 →
      ∃ j : Nat, j < k ∧
        (ClusteringService.dbscan_accept_branch features labels).getD i 0 = (j : Int) + 1 ∧
        ∀ jq : Nat, jq < k →
          ClusteringService.sqDist (features.getD i [])
              (ClusteringService.centroidOf features labels (features.headD []).length (j : Int))
            ≤ ClusteringService.sqDist (features.getD i [])
              (ClusteringService.centroidOf features labels (features.headD []).length (jq : Int))) := by
  have hmemrange : ∀ l : Int, l ∈ labels → l ≠ -1 → ∃ j : Nat, j < k ∧ l = (j : Int) := by
    intro l hl hne
    have h0 : 0 ≤ l := by
      have := hlab l hl
      omega
    have hmf : l ∈ labels.filter (fun l => 0 ≤ l) := List.mem_filter.2 ⟨hl, by simpa using h0⟩
    have hmd : l ∈ (labels.filter (fun l => 0 ≤ l)).dedup := List.mem_dedup.2 hmf
    have hms : l ∈ ClusteringService.uniqueNonNoise labels := mem_sortInt.2 hmd
    rw [hk] at hms
    rcases List.mem_map.1 hms with ⟨j, hj, rfl⟩
    exact ⟨j, List.mem_range.1 hj, rfl⟩
  refine ⟨by simp [ClusteringService.dbscan_accept_branch], ?_, ?_, ?_⟩
  · intro m hm
    rcases List.mem_map.1 hm with ⟨i, hi, rfl⟩
    have hilt : i < labels.length := List.mem_range.1 hi
    split
    · rcases nearestCentroidLabel_spec features labels k hk h2 (features.getD i [])
        with ⟨j, hjk, hjeq, -⟩
      rw [hjeq]
      constructor <;> [omega; exact_mod_cast by omega]
    · rename_i hne
      have hmem : labels.getD i 0 ∈ labels := by
        rw [List.getD_eq_getElem _ _ hilt]
        exact List.getElem_mem hilt
      rcases hmemrange _ hmem hne with ⟨j, hjk, hjeq⟩
      rw [hjeq]
      constructor <;> [omega; exact_mod_cast by omega]
  · intro j h1 hjk
    have hjm1 : (j - 1 : Nat) < k := by omega
    have hmem : ((j - 1 : Nat) : Int) ∈ labels := by
      have : ((j - 1 : Nat) : Int) ∈ ClusteringService.uniqueNonNoise labels := by
        rw [hk]
        exact List.mem_map.2 ⟨j - 1, List.mem_range.2 hjm1, rfl⟩
      have hms := mem_sortInt.1 this
      exact List.mem_of_mem_filter (List.mem_dedup.1 hms)
    rcases List.mem_iff_get.1 hmem with ⟨⟨i, hi⟩, hgi⟩
    refine List.mem_map.2 ⟨i, List.mem_range.2 hi, ?_⟩
    have hgd : labels.getD i 0 = ((j - 1 : Nat) : Int) := by
      rw [List.getD_eq_getElem _ _ hi, ← hgi]
      simp
    rw [hgd, if_neg (by omega)]
    omega
  · intro i hilt hni
    rcases nearestCentroidLabel_spec features labels k hk h2 (features.getD i [])
      with ⟨j, hjk, hjeq, hjmin⟩
    have hrow : (features.getD i []).length = (features.headD []).length := by
      have hif : i < features.length := by omega
      have : features.getD i [] ∈ features := by
        rw [List.getD_eq_getElem _ _ hif]
        exact List.getElem_mem hif
      exact hdim _ this
    have hcent : ∀ l : Int, (ClusteringService.centroidOf features labels
        (features.headD []).length l).length = (features.headD []).length := by
      intro l
      simp [ClusteringService.centroidOf]
    have hconv : ∀ l : Int,
        ClusteringService.d2code (features.getD i [])
            (ClusteringService.centroidOf features labels (features.headD []).length l)
          = ClusteringService.sqDist (features.getD i [])
            (ClusteringService.centroidOf features labels (features.headD []).length l) := by
      intro l
      exact d2code_eq_sqDist _ _ (by rw [hrow, hcent])
    refine ⟨j, hjk, ?_, ?_⟩
    · have : (ClusteringService.dbscan_accept_branch features labels).getD i 0
          = (if labels.getD i 0 = -1
             then ClusteringService.nearestCentroidLabel features labels (features.getD i [])
             else labels.getD i 0) + 1 := by
        rw [ClusteringService.dbscan_accept_branch,
          List.getD_eq_getElem _ _ (by simpa using hilt)]
        simp
      rw [this, if_pos hni, hjeq]
    · intro jq hjq
      rw [← hconv, ← hconv]
      exact hjmin jq hjq

/-- Witness for C6 at a concrete accepted trial: four points, clusters
`0` and `1` plus one noise point; after reassignment and renumbering the
label `2` occurs in the output. -/
theorem c6_dbscan_accept_reassignment_witness :
    ((2 : Nat) : Int) ∈ ClusteringService.dbscan_accept_branch
      [[0, 0], [2, 2], [0, 1], [0, 0]] [0, 1, -1, 0] :=
  (c6_dbscan_accept_reassignment [[0, 0], [2, 2], [0, 1], [0, 0]] [0, 1, -1, 0] 2
    (by decide) (by decide) (by decide) (by decide) (by decide) (by decide)).2.2.1
    2 (by decide) (by decide)
